import Mathlib

/-!
Shallow embedding of the Musimo client-side analysis protocol and Redux state
slices, with theorems about the properties stated in the design document.

Sources embedded:
* the `EmotionAnalyzer` React component (WebSocket event handling, UI state,
  rendering conditions) — the only protocol-shaped code present in the repo;
* the theme Redux slice (`themeSlice`);
* the auth Redux slice (`authSlice`) and its selectors, together with the
  root store shape (`auth` / `theme` keys);
* the server-side Pipeline Runner, which is not present in the repository
  sources, is modelled from the design document where needed (definitions
  marked `Modelled from the spec:`).
-/

namespace Musimo

/-- One entry of `all_steps` on the wire:
`{id, name, status, progress?, message?, duration?}`.  Optional JSON fields
are `Option`s (`none` = the key is absent / `undefined`). -/
structure StepInfo where
  id : String
  name : String
  status : String
  progress : Option ℚ := none
  message : Option String := none
  duration : Option ℚ := none
deriving Repr, DecidableEq

/-- The `static` sub-result of an analysis: emotion-label probabilities plus
the audio duration. -/
structure StaticResult where
  emotions : List (String × ℚ)
  duration : ℚ
deriving Repr, DecidableEq

/-- The `dynamic` sub-result: timestamps paired with per-timestamp emotion
probabilities. -/
structure DynamicResult where
  timestamps : List ℚ
  emotions : List (List (String × ℚ))
deriving Repr, DecidableEq

/-- The payload of `analysis_complete`: optional `static` and `dynamic`
sub-results (the client tests `result.static` / `result.dynamic`). -/
structure AnalysisResult where
  static : Option StaticResult := none
  dynamic : Option DynamicResult := none
deriving Repr, DecidableEq

/-- Server → client events of the `ws/analyze-emotion` protocol, as consumed
by the `switch (data.type)` in `connectWebSocket`.  `unknown` stands for any
message whose `type` is none of the handled strings (the `default` branch). -/
inductive ServerEvent where
  | connected (session_id : String)
  | step_started (step : StepInfo) (all_steps : List StepInfo) (overall_progress : ℚ)
  | progress_update (all_steps : List StepInfo) (overall_progress : ℚ)
  | step_completed (all_steps : List StepInfo) (overall_progress : ℚ)
  | pipeline_completed (all_steps : List StepInfo) (overall_progress : ℚ)
  | analysis_complete (result : AnalysisResult)
  | error (error : String)
  | pipeline_failed (error : String) (all_steps : List StepInfo)
  | unknown (msgType : String)
deriving Repr, DecidableEq

/-- Client → server commands sent over the WebSocket. -/
inductive Command where
  | analyze (file_data : String) (filename : String) (prediction_type : String)
  | cancel
deriving Repr, DecidableEq

/-- The `EmotionAnalyzer` component state: the `useState` hooks
`file`, `isAnalyzing`, `overallProgress`, `steps`, `currentStep` (the hook
whose value is discarded as `_`), `result`, `error`, `predictionType`. -/
structure ClientState where
  file : Option String
  isAnalyzing : Bool
  overallProgress : ℚ
  steps : List StepInfo
  currentStep : Option String
  result : Option AnalysisResult
  error : Option String
  predictionType : String
deriving Repr, DecidableEq

/-- The initial hook values: `useState(null)`, `useState(false)`,
`useState(0)`, `useState([])`, `useState(null)`, `useState(null)`,
`useState(null)`, `useState(both)`. -/
def initialClientState : ClientState :=
  { file := none
    isAnalyzing := false
    overallProgress := 0
    steps := []
    currentStep := none
    result := none
    error := none
    predictionType := "both" }

/-- The `ws.onmessage` handler of `connectWebSocket`: one state update per
event kind, following the `switch (data.type)` cases. -/
def handleMessage (s : ClientState) : ServerEvent → ClientState
  | ServerEvent.connected _ => s
  | ServerEvent.step_started step all_steps op =>
      { s with steps := all_steps, currentStep := some step.id, overallProgress := op }
  | ServerEvent.progress_update all_steps op =>
      { s with steps := all_steps, overallProgress := op }
  | ServerEvent.step_completed all_steps op =>
      { s with steps := all_steps, overallProgress := op }
  | ServerEvent.pipeline_completed all_steps _ =>
      { s with steps := all_steps, overallProgress := 100 }
  | ServerEvent.analysis_complete r =>
      { s with result := some r, isAnalyzing := false, overallProgress := 100 }
  | ServerEvent.error msg =>
      { s with error := some msg, isAnalyzing := false }
  | ServerEvent.pipeline_failed msg _ =>
      { s with error := some msg, isAnalyzing := false }
  | ServerEvent.unknown _ => s

/-- The state reset performed at the top of `analyzeAudio`:
`setIsAnalyzing(true); setError(null); setResult(null); setSteps([]);
setOverallProgress(0)`. -/
def analyzeReset (s : ClientState) : ClientState :=
  { s with isAnalyzing := true, error := none, result := none, steps := [],
           overallProgress := 0 }

/-- The message `analyzeAudio` sends once the file is base64-encoded:
`{action:"analyze", file_data, filename, prediction_type: predictionType}`. -/
def analyzeCommandSent (file_data : String) (filename : String) (s : ClientState) : Command :=
  Command.analyze file_data filename s.predictionType

/-- Observable effect of `cancelAnalysis` on the socket: which commands were
sent and whether `close()` was called. -/
structure SocketEffect where
  sent : List Command
  closed : Bool
deriving Repr, DecidableEq

/-- Function `cancelAnalysis`: if a socket is present (`wsRef.current`), send the
single `{action:"cancel"}` command and close the socket; in every case set
`isAnalyzing` to `false`. -/
def cancelAnalysis (socketPresent : Bool) (s : ClientState) : SocketEffect × ClientState :=
  if socketPresent then
    ({ sent := [Command.cancel], closed := true }, { s with isAnalyzing := false })
  else
    ({ sent := [], closed := false }, { s with isAnalyzing := false })

/-- Handler `handleFileSelect` with a chosen file: `setFile(selectedFile);
setResult(null); setError(null); setSteps([]); setOverallProgress(0)`. -/
def handleFileSelect (s : ClientState) (selectedFile : String) : ClientState :=
  { s with file := some selectedFile, result := none, error := none,
           steps := [], overallProgress := 0 }

/-- The `value` attributes of the three `<option>` elements of the
prediction-type `<select>`. -/
def predictionTypeOptions : List String := ["static", "dynamic", "both"]

/-- The `onChange` handler of the prediction-type select:
`setPredictionType(e.target.value)`. -/
def selectPredictionOnChange (s : ClientState) (v : String) : ClientState :=
  { s with predictionType := v }

/-- The reset behind the "Analyze Another File" button: `setFile(null);
setResult(null); setSteps([]); setOverallProgress(0)`. -/
def resetAfterResult (s : ClientState) : ClientState :=
  { s with file := none, result := none, steps := [], overallProgress := 0 }

/-- All state transitions of the `EmotionAnalyzer` component. -/
inductive ClientAction where
  | message (e : ServerEvent)
  | selectPrediction (v : String)
  | fileSelect (name : String)
  | startAnalyze
  | cancel (socketPresent : Bool)
  | newFile
deriving Repr, DecidableEq

/-- Dispatch one UI/network action on the component state. -/
def stepClient (s : ClientState) : ClientAction → ClientState
  | ClientAction.message e => handleMessage s e
  | ClientAction.selectPrediction v => selectPredictionOnChange s v
  | ClientAction.fileSelect name => handleFileSelect s name
  | ClientAction.startAnalyze => analyzeReset s
  | ClientAction.cancel socketPresent => (cancelAnalysis socketPresent s).2
  | ClientAction.newFile => resetAfterResult s

/-- A select element can only fire `onChange` with one of its option values;
`selValOk` says an action trace respects that DOM constraint. -/
def selValOk : ClientAction → Bool
  | ClientAction.selectPrediction v => decide (v ∈ predictionTypeOptions)
  | _ => true

/-! Rendering.  The JSX of `EmotionAnalyzer` gates each section on a state
condition; we embed which sections appear and how one step row is built. -/

/-- Function `getStepIcon`: icon chosen from the step status string. -/
def getStepIcon (status : String) : String :=
  if status = "completed" then "CheckCircle"
  else if status = "in_progress" then "Loader2"
  else if status = "failed" then "XCircle"
  else "EmptyCircle"

/-- Which top-level sections of the component render, per the JSX guards:
the progress/steps section is rendered iff `isAnalyzing`, the error banner
iff `error` is set, the results section iff `result` is set. -/
structure RenderView where
  showsStepList : Bool
  showsErrorBanner : Bool
  showsResult : Bool
deriving Repr, DecidableEq

/-- The JSX guards `{isAnalyzing && ...}`, `{error && ...}`,
`{result && ...}`. -/
def render (s : ClientState) : RenderView :=
  { showsStepList := s.isAnalyzing
    showsErrorBanner := s.error.isSome
    showsResult := s.result.isSome }

/-- JavaScript member call `v.toFixed(digits)`: raises a `TypeError` when `v`
is `undefined`; otherwise rounds to `digits` decimal places. -/
def jsToFixed (digits : ℕ) (v : Option ℚ) : Except String ℚ :=
  match v with
  | some q => Except.ok (((round (q * (10 : ℚ) ^ digits) : ℤ) : ℚ) / (10 : ℚ) ^ digits)
  | none => Except.error "TypeError: toFixed called on undefined"

/-- JavaScript comparison `v > c` where `v` may be `undefined`
(`undefined > c` is `false`, it does not throw). -/
def jsGreaterThan (v : Option ℚ) (c : ℚ) : Bool :=
  match v with
  | some q => decide (c < q)
  | none => false

/-- What one rendered step row displays. -/
structure StepRowView where
  icon : String
  name : String
  message : Option String
  progressText : Option ℚ
  durationText : Option ℚ
  showsInnerBar : Bool
deriving Repr, DecidableEq

/-- One entry of `steps.map((step) => ...)`: the row shows the status icon,
the name, the optional message and duration, and — only when
`step.status === "in_progress"` — the text `step.progress.toFixed(0)` and an
inner bar when additionally `step.progress > 0`.  The `toFixed` call is the
one member access not guarded against an absent `progress` field. -/
def renderStepRow (step : StepInfo) : Except String StepRowView :=
  if step.status = "in_progress" then
    match jsToFixed 0 step.progress with
    | Except.error e => Except.error e
    | Except.ok p =>
        Except.ok
          { icon := getStepIcon step.status
            name := step.name
            message := step.message
            progressText := some p
            durationText := step.duration
            showsInnerBar := jsGreaterThan step.progress 0 }
  else
    Except.ok
      { icon := getStepIcon step.status
        name := step.name
        message := step.message
        progressText := none
        durationText := step.duration
        showsInnerBar := false }

/-- The whole steps section: rows rendered in order; evaluation aborts at the
first row whose construction throws. -/
def renderStepList : List StepInfo → Except String (List StepRowView)
  | [] => Except.ok []
  | st :: rest =>
      match renderStepRow st with
      | Except.error e => Except.error e
      | Except.ok row =>
          match renderStepList rest with
          | Except.error e => Except.error e
          | Except.ok rows => Except.ok (row :: rows)

/-! The theme Redux slice (`themeSlice`). -/

/-- Theme slice state: `{ mode }`. -/
structure ThemeState where
  mode : String
deriving Repr, DecidableEq

/-- The theme slice `initialState`: `{ mode: "system" }`. -/
def initialThemeState : ThemeState := { mode := "system" }

/-- The `allowedModes` list of the `setThemeMode` reducer. -/
def allowedModes : List String := ["light", "dark", "system"]

/-- Reducer `setThemeMode`: assign the payload only when it is one of
`allowedModes`, else leave the state unchanged. -/
def setThemeMode (state : ThemeState) (payload : String) : ThemeState :=
  if payload ∈ allowedModes then { state with mode := payload } else state

/-- Reducer `setToggleThemeMode`: `light ↦ dark`, `dark ↦ system`,
anything else `↦ light`. -/
def setToggleThemeMode (state : ThemeState) : ThemeState :=
  if state.mode = "light" then { state with mode := "dark" }
  else if state.mode = "dark" then { state with mode := "system" }
  else { state with mode := "light" }

/-- The two actions of the theme slice. -/
inductive ThemeAction where
  | setMode (payload : String)
  | toggleMode
deriving Repr, DecidableEq

/-- Dispatch on the theme slice. -/
def themeReduce (state : ThemeState) : ThemeAction → ThemeState
  | ThemeAction.setMode p => setThemeMode state p
  | ThemeAction.toggleMode => setToggleThemeMode state

/-- Selector `selectThemeMode`: reads `state.theme.mode` (slice view). -/
def selectThemeModeOf (state : ThemeState) : String := state.mode

/-! The auth Redux slice (`authSlice`) — the parts claim C7 is about. -/

/-- Stand-in for the dynamic JS `user` object. -/
abbrev UserData := List (String × String)

/-- Auth slice state.  Fields are those of the slice `initialState`, plus
`prefersDarkMode`, a key that does not exist initially but is created by the
`setPreferences` reducer (a dynamic JS property write); `none` models the
key being absent (`undefined`). -/
structure AuthState where
  user : Option UserData
  isAuthenticated : Bool
  isLoading : Bool
  isRefreshing : Bool
  error : Option String
  accessToken : Option String
  tokenExpiryEstimate : Option ℤ
  preferThemeMode : String
  authStep : String
  verificationEmail : Option String
  prefersDarkMode : Option String
deriving Repr, DecidableEq

/-- The auth slice `initialState` (the `prefersDarkMode` key is absent). -/
def initialAuthState : AuthState :=
  { user := none
    isAuthenticated := false
    isLoading := false
    isRefreshing := false
    error := none
    accessToken := none
    tokenExpiryEstimate := none
    preferThemeMode := "system"
    authStep := "register"
    verificationEmail := none
    prefersDarkMode := none }

/-- Reducer `setVerificationEmail`: the source writes
`state.auth.verificationEmail = payload`, but inside a slice reducer `state`
is already the auth slice state, which has no `auth` key; the member write on
`undefined` raises a `TypeError`, so dispatching this action throws and the
state is never updated. -/
def setVerificationEmail (state : AuthState) (payload : String) :
    Except String AuthState :=
  Except.error "TypeError: cannot set verificationEmail of undefined"

/-- Reducer `setPreferences`: `state.prefersDarkMode = payload` — a write to
a key the initial state does not declare (note: not `preferThemeMode`). -/
def setPreferences (state : AuthState) (payload : String) : AuthState :=
  { state with prefersDarkMode := some payload }

/-- Reducer `setAuthStep`: `state.authStep = payload`. -/
def setAuthStep (state : AuthState) (payload : String) : AuthState :=
  { state with authStep := payload }

/-- The root store shape relevant here: `configureStore` mounts the auth
slice at key `auth` and the theme slice at key `theme`. -/
structure RootState where
  auth : AuthState
  theme : ThemeState
deriving Repr, DecidableEq

/-- Selector `selectVerificationEmail`: `state.auth.verificationEmail`. -/
def selectVerificationEmail (state : RootState) : Option String :=
  state.auth.verificationEmail

/-- Selector `selectPreferences`: the source reads
`state.auth.prefersThemeMode`, a key the auth slice state never has (the
initial state declares `preferThemeMode` and `setPreferences` writes
`prefersDarkMode`), so the read always yields `undefined`. -/
def selectPreferences (state : RootState) : Option String :=
  none

/-- Selector `selectAuthStep`: `state.auth.authStep`. -/
def selectAuthStep (state : RootState) : String :=
  state.auth.authStep

/-! The server-side Pipeline Runner.  The repository contains no server
sources (only the client in `EmotionAnalyzer`), so the event stream a run
produces is modelled from the design document. -/

/-- Modelled from the spec: one step of the fixed pipeline of a run — its
identifier, display name, and the fractional progress values (in `[0,1]`)
reported by its `progress_update` events while it executes.  The server
sources are absent from the repository. -/
structure RunStep where
  id : String
  name : String
  updates : List ℚ
deriving Repr, DecidableEq

/-- Predicate `ChainLe l`: consecutive elements of `l` are weakly increasing. -/
def ChainLe : List ℚ → Prop
  | [] => True
  | [_] => True
  | a :: b :: t => a ≤ b ∧ ChainLe (b :: t)

instance chainLeDec : (l : List ℚ) → Decidable (ChainLe l)
  | [] => Decidable.isTrue trivial
  | [_] => Decidable.isTrue trivial
  | a :: b :: t =>
      have : Decidable (ChainLe (b :: t)) := chainLeDec (b :: t)
      inferInstanceAs (Decidable (a ≤ b ∧ ChainLe (b :: t)))

/-- Modelled from the spec: the reported within-step progress values
are fractions in `[0,1]`, monotonically non-decreasing while the step is
`in_progress`. -/
def StepWF (rs : RunStep) : Prop :=
  (∀ f ∈ rs.updates, 0 ≤ f ∧ f ≤ 1) ∧ ChainLe rs.updates

instance (rs : RunStep) : Decidable (StepWF rs) :=
  inferInstanceAs (Decidable ((∀ f ∈ rs.updates, 0 ≤ f ∧ f ≤ 1) ∧ ChainLe rs.updates))

/-- Modelled from the spec: `overall_progress` is computed as
`(completed_steps + current_step_fractional_progress) / total_steps * 100`. -/
def overallProgressOf (total completed : ℕ) (frac : ℚ) : ℚ :=
  ((completed : ℚ) + frac) / (total : ℚ) * 100

/-- Modelled from the spec: the `all_steps` payload when `completed` steps
are done and the next one, if any, is `in_progress` at fraction `curFrac`. -/
def runnerAllSteps (steps : List RunStep) (completed : ℕ) (curFrac : Option ℚ) :
    List StepInfo :=
  steps.mapIdx fun idx rs =>
    if idx < completed then
      { id := rs.id, name := rs.name, status := "completed", progress := some 100 }
    else if idx = completed then
      match curFrac with
      | some f =>
          { id := rs.id, name := rs.name, status := "in_progress",
            progress := some (f * 100) }
      | none => { id := rs.id, name := rs.name, status := "pending" }
    else { id := rs.id, name := rs.name, status := "pending" }

/-- Modelled from the spec: the `step` payload of `step_started`. -/
def stepStartedView (rs : RunStep) : StepInfo :=
  { id := rs.id, name := rs.name, status := "in_progress", progress := some 0 }

/-- Modelled from the spec: the events one step at position `i` (of `n`)
emits — `step_started` at fraction `0`, a `progress_update` per reported
fraction, then `step_completed` at fraction `1`. -/
def runnerStepEvents (allS : List RunStep) (n i : ℕ) (rs : RunStep) :
    List ServerEvent :=
  ServerEvent.step_started (stepStartedView rs) (runnerAllSteps allS i (some 0))
      (overallProgressOf n i 0)
    :: (rs.updates.map fun f =>
        ServerEvent.progress_update (runnerAllSteps allS i (some f))
          (overallProgressOf n i f))
    ++ [ServerEvent.step_completed (runnerAllSteps allS (i + 1) none)
          (overallProgressOf n i 1)]

/-- Modelled from the spec: the events of the steps in `rest`, which sit at
positions `i, i+1, …` of the `n`-step pipeline `allS`, in order. -/
def runnerStepsEvents (allS : List RunStep) (n : ℕ) : ℕ → List RunStep → List ServerEvent
  | _, [] => []
  | i, rs :: rest =>
      runnerStepEvents allS n i rs ++ runnerStepsEvents allS n (i + 1) rest

/-- Modelled from the spec: the `pipeline_completed` event — all steps done,
`overall_progress = 100`. -/
def pipelineCompletedEvent (steps : List RunStep) : ServerEvent :=
  ServerEvent.pipeline_completed (runnerAllSteps steps steps.length none) 100

/-- Modelled from the spec: the full event stream of a successful run —
`connected`, per-step lifecycle events in order, `pipeline_completed`, then
`analysis_complete{result}`, after which the run terminates. -/
def runnerSuccessEvents (sid : String) (steps : List RunStep)
    (res : AnalysisResult) : List ServerEvent :=
  ServerEvent.connected sid
    :: runnerStepsEvents steps steps.length 0 steps
    ++ [pipelineCompletedEvent steps, ServerEvent.analysis_complete res]

/-- Modelled from the spec: the events delivered when a `cancel` command
arrives while step `j` is in progress — cancellation is observed
cooperatively at the step boundary, the Runner stops before starting the
next step and emits no further events, and the Gateway closes the channel
without ever emitting a result event for the session. -/
def runnerCancelledEvents (sid : String) (steps : List RunStep) (j : ℕ) :
    List ServerEvent :=
  ServerEvent.connected sid
    :: runnerStepsEvents steps steps.length 0 (steps.take (j + 1))

/-! Observing the client across an event stream. -/

/-- How one event rewrites the `overallProgress` of the client (extracted from
`handleMessage`). -/
def progressEffect (p : ℚ) : ServerEvent → ℚ
  | ServerEvent.step_started _ _ op => op
  | ServerEvent.progress_update _ op => op
  | ServerEvent.step_completed _ op => op
  | ServerEvent.pipeline_completed _ _ => 100
  | ServerEvent.analysis_complete _ => 100
  | _ => p

/-- All intermediate client states while folding `handleMessage` over an
event stream, the start state included. -/
def clientTrace (s : ClientState) : List ServerEvent → List ClientState
  | [] => [s]
  | e :: evs => s :: clientTrace (handleMessage s e) evs

/-- The corresponding trace of `overallProgress` values. -/
def progressTrace (p : ℚ) : List ServerEvent → List ℚ
  | [] => [p]
  | e :: evs => p :: progressTrace (progressEffect p e) evs

/-- Predicate `GoodFrom p evs`: starting from a held progress value `p`, every event of
`evs` moves the held value weakly upward. -/
def GoodFrom : ℚ → List ServerEvent → Prop
  | _, [] => True
  | p, e :: evs => p ≤ progressEffect p e ∧ GoodFrom (progressEffect p e) evs

/-! Concrete sample inputs used to instantiate the theorems below. -/

/-- A sample in-progress step as it appears in an `all_steps` payload. -/
def demoFailStep : StepInfo :=
  { id := "decode_audio", name := "Decode Audio", status := "in_progress",
    progress := some 10 }

/-- A sample two-step pipeline with well-formed progress reports. -/
def demoRunSteps : List RunStep :=
  [{ id := "decode_audio", name := "Decode Audio", updates := [0, 1] },
   { id := "extract_features", name := "Extract Features", updates := [] }]

/-- A sample analysis result. -/
def demoResult : AnalysisResult :=
  { static := some { emotions := [("happy", 1)], duration := 30 }, dynamic := none }

/-- A sample received `all_steps` array whose `in_progress` entry carries a
numeric `progress`. -/
def demoRenderSteps : List StepInfo :=
  [{ id := "decode_audio", name := "Decode Audio", status := "completed",
     progress := some 100, duration := some 2 },
   { id := "extract_features", name := "Extract Features", status := "in_progress",
     progress := some 40 },
   { id := "static_inference", name := "Static Inference", status := "pending" }]

/-- A sample UI action trace: pick a file, choose `static`, start. -/
def demoTrace : List ClientAction :=
  [ClientAction.fileSelect "clip.wav",
   ClientAction.selectPrediction "static",
   ClientAction.startAnalyze]

/-! ### Theorems -/

/-- Lemma: `handleMessage` rewrites `overallProgress` exactly as `progressEffect`
says. -/
theorem handleMessage_overallProgress (s : ClientState) (e : ServerEvent) :
    (handleMessage s e).overallProgress = progressEffect s.overallProgress e := by
  cases e <;> rfl

/-- Lemma: `handleMessage` never touches `predictionType`. -/
theorem handleMessage_predictionType (s : ClientState) (e : ServerEvent) :
    (handleMessage s e).predictionType = s.predictionType := by
  cases e <;> rfl

/-- Events other than `analysis_complete` never touch `result`. -/
theorem handleMessage_result_stable (s : ClientState) (e : ServerEvent)
    (h : ∀ r, e ≠ ServerEvent.analysis_complete r) :
    (handleMessage s e).result = s.result := by
  cases e with
  | analysis_complete r => exact absurd rfl (h r)
  | _ => rfl

/-- Folding a stream free of `analysis_complete` keeps `result` at `none`. -/
theorem foldl_result_none :
    ∀ (evs : List ServerEvent) (s : ClientState), s.result = none →
      (∀ e ∈ evs, ∀ r, e ≠ ServerEvent.analysis_complete r) →
      (evs.foldl handleMessage s).result = none
  | [], s, hs, _ => hs
  | e :: evs, s, hs, h => by
      have he := h e (List.mem_cons_self e evs)
      have : (handleMessage s e).result = none :=
        (handleMessage_result_stable s e he).trans hs
      exact foldl_result_none evs (handleMessage s e) this
        (fun x hx => h x (List.mem_cons_of_mem e hx))

/-- C8: processing a `connected` event or a message of unknown kind leaves
the whole analysis state — steps, overall progress, result, error, analyzing
flag — unchanged. -/
theorem connected_unknown_frame (s : ClientState) (sid msgType : String) :
    handleMessage s (ServerEvent.connected sid) = s
    ∧ handleMessage s (ServerEvent.unknown msgType) = s :=
  ⟨rfl, rfl⟩

/-- C4: the `result` field of the client changes only by processing
`analysis_complete`, which sets it to the carried result; `error` and
`pipeline_failed` record the error message and leave `result` untouched. -/
theorem result_only_from_analysis_complete (s : ClientState) (e : ServerEvent) :
    ((handleMessage s e).result = s.result ∨
      ∃ r, e = ServerEvent.analysis_complete r ∧ (handleMessage s e).result = some r)
    ∧ (∀ msg, (handleMessage s (ServerEvent.error msg)).result = s.result
        ∧ (handleMessage s (ServerEvent.error msg)).error = some msg)
    ∧ ∀ msg sts, (handleMessage s (ServerEvent.pipeline_failed msg sts)).result = s.result
        ∧ (handleMessage s (ServerEvent.pipeline_failed msg sts)).error = some msg := by
  refine ⟨?_, fun msg => ⟨rfl, rfl⟩, fun msg sts => ⟨rfl, rfl⟩⟩
  cases e with
  | analysis_complete r => exact Or.inr ⟨r, rfl, rfl⟩
  | _ => exact Or.inl rfl

/-- Each theme reducer sends a state whose mode is arbitrary to a state
whose mode is allowed, provided `setThemeMode` starts from an allowed mode. -/
theorem themeReduce_mode_mem (st : ThemeState) (a : ThemeAction)
    (h : st.mode ∈ allowedModes) : (themeReduce st a).mode ∈ allowedModes := by
  cases a with
  | setMode p =>
      by_cases hp : p ∈ allowedModes <;> simp [themeReduce, setThemeMode, hp]
      exact h
  | toggleMode =>
      simp only [themeReduce, setToggleThemeMode]
      split_ifs <;> simp [allowedModes]

/-- Reachable theme modes stay in the allowed set. -/
theorem themeReduce_foldl_mem :
    ∀ (acts : List ThemeAction) (st : ThemeState), st.mode ∈ allowedModes →
      (acts.foldl themeReduce st).mode ∈ allowedModes
  | [], _, h => h
  | a :: acts, st, h =>
      themeReduce_foldl_mem acts (themeReduce st a) (themeReduce_mode_mem st a h)

/-- C10: the theme mode invariant — `setThemeMode` ignores payloads outside
`{light, dark, system}`, `setToggleThemeMode` cycles
light → dark → system → light, and from the initial mode `system` every
reachable state has an allowed mode. -/
theorem theme_mode_invariant :
    (∀ (st : ThemeState) (p : String), p ∉ allowedModes → setThemeMode st p = st)
    ∧ setToggleThemeMode { mode := "light" } = { mode := "dark" }
    ∧ setToggleThemeMode { mode := "dark" } = { mode := "system" }
    ∧ setToggleThemeMode { mode := "system" } = { mode := "light" }
    ∧ allowedModes = ["light", "dark", "system"]
    ∧ initialThemeState.mode ∈ allowedModes
    ∧ ∀ acts : List ThemeAction,
        (acts.foldl themeReduce initialThemeState).mode ∈ allowedModes := by
  refine ⟨fun st p hp => by simp [setThemeMode, hp], by decide, by decide, by decide,
    rfl, by decide, fun acts => themeReduce_foldl_mem acts initialThemeState (by decide)⟩

/-- C7: the auth slice write/read round trip is broken in the code —
`setPreferences` writes the key `prefersDarkMode` while `selectPreferences`
reads the never-written key `prefersThemeMode`, so the selector yields
`undefined` instead of the written value; and `setVerificationEmail` writes
through `state.auth`, which is `undefined` inside the slice reducer, so the
dispatch throws a `TypeError` instead of updating the state. -/
theorem auth_selector_roundtrip_code_bug :
    selectPreferences
        { auth := setPreferences initialAuthState "dark", theme := initialThemeState }
      = none
    ∧ selectPreferences
        { auth := setPreferences initialAuthState "dark", theme := initialThemeState }
      ≠ some "dark"
    ∧ setVerificationEmail initialAuthState "user@example.com"
      = Except.error "TypeError: cannot set verificationEmail of undefined"
    ∧ selectVerificationEmail { auth := initialAuthState, theme := initialThemeState }
      = none := by
  exact ⟨rfl, by simp [selectPreferences], rfl, rfl⟩

/-- C5 counterexample: a concrete session that receives `step_started` and
then `pipeline_failed` — the state keeps the last step list, the error
banner renders, but the step-list section does not render (the claim says it
remains displayed). -/
theorem failed_run_step_list_hidden_cex :
    (render (handleMessage
        (handleMessage (analyzeReset initialClientState)
          (ServerEvent.step_started demoFailStep [demoFailStep] 0))
        (ServerEvent.pipeline_failed "decode failed" [demoFailStep]))).showsStepList
      = false
    ∧ (render (handleMessage
        (handleMessage (analyzeReset initialClientState)
          (ServerEvent.step_started demoFailStep [demoFailStep] 0))
        (ServerEvent.pipeline_failed "decode failed" [demoFailStep]))).showsErrorBanner
      = true
    ∧ (handleMessage
        (handleMessage (analyzeReset initialClientState)
          (ServerEvent.step_started demoFailStep [demoFailStep] 0))
        (ServerEvent.pipeline_failed "decode failed" [demoFailStep])).steps
      = [demoFailStep] := by
  decide

/-- C5 (amended): after an `error` or `pipeline_failed` event the client
keeps the last received step list in its state and renders the error banner,
but the step-list section itself is hidden (the analyzing flag is cleared),
and no partial result is presented: `result` stays `null` and the results
section is not rendered. -/
theorem failed_run_renders_error_banner_only (s : ClientState) (msg : String)
    (sts : List StepInfo) (hres : s.result = none) :
    ((handleMessage s (ServerEvent.pipeline_failed msg sts)).steps = s.steps
      ∧ (handleMessage s (ServerEvent.pipeline_failed msg sts)).error = some msg
      ∧ (render (handleMessage s (ServerEvent.pipeline_failed msg sts))).showsErrorBanner = true
      ∧ (render (handleMessage s (ServerEvent.pipeline_failed msg sts))).showsStepList = false
      ∧ (handleMessage s (ServerEvent.pipeline_failed msg sts)).result = none
      ∧ (render (handleMessage s (ServerEvent.pipeline_failed msg sts))).showsResult = false)
    ∧ ((handleMessage s (ServerEvent.error msg)).steps = s.steps
      ∧ (handleMessage s (ServerEvent.error msg)).error = some msg
      ∧ (render (handleMessage s (ServerEvent.error msg))).showsErrorBanner = true
      ∧ (render (handleMessage s (ServerEvent.error msg))).showsStepList = false
      ∧ (handleMessage s (ServerEvent.error msg)).result = none
      ∧ (render (handleMessage s (ServerEvent.error msg))).showsResult = false) := by
  refine ⟨⟨rfl, rfl, rfl, ?_, hres, ?_⟩, ⟨rfl, rfl, rfl, ?_, hres, ?_⟩⟩ <;>
    simp [render, handleMessage, hres]

/-- C5 witness: the amended statement at a concrete failing session. -/
theorem failed_run_renders_error_banner_only_witness :
    (handleMessage (analyzeReset initialClientState)
        (ServerEvent.step_started demoFailStep [demoFailStep] 0)).result = none
    ∧ (render (handleMessage
        (handleMessage (analyzeReset initialClientState)
          (ServerEvent.step_started demoFailStep [demoFailStep] 0))
        (ServerEvent.pipeline_failed "decode failed" [demoFailStep]))).showsErrorBanner
      = true :=
  ⟨rfl,
    (failed_run_renders_error_banner_only
      (handleMessage (analyzeReset initialClientState)
        (ServerEvent.step_started demoFailStep [demoFailStep] 0))
      "decode failed" [demoFailStep] rfl).1.2.2.1⟩

/-- One client action keeps `predictionType` inside the option set, given
that select events only carry option values. -/
theorem stepClient_predictionType_mem (s : ClientState) (a : ClientAction)
    (ha : selValOk a = true) (hs : s.predictionType ∈ predictionTypeOptions) :
    (stepClient s a).predictionType ∈ predictionTypeOptions := by
  cases a with
  | message e => rw [stepClient, handleMessage_predictionType]; exact hs
  | selectPrediction v =>
      simpa [stepClient, selectPredictionOnChange] using of_decide_eq_true ha
  | fileSelect name => exact hs
  | startAnalyze => exact hs
  | cancel socketPresent =>
      cases socketPresent <;> simpa [stepClient, cancelAnalysis] using hs
  | newFile => exact hs

/-- Membership of `predictionType` in the option set is preserved along any well-formed trace. -/
theorem foldl_predictionType_mem :
    ∀ (tr : List ClientAction) (s : ClientState), (∀ a ∈ tr, selValOk a = true) →
      s.predictionType ∈ predictionTypeOptions →
      (tr.foldl stepClient s).predictionType ∈ predictionTypeOptions
  | [], _, _, hs => hs
  | a :: tr, s, h, hs =>
      foldl_predictionType_mem tr (stepClient s a)
        (fun x hx => h x (List.mem_cons_of_mem a hx))
        (stepClient_predictionType_mem s a (h a (List.mem_cons_self a tr)) hs)

/-- C6: the prediction-type selector offers exactly `static`, `dynamic`,
`both`; the initial value is `both`; along any action trace whose select
events carry option values, the held `predictionType` stays in the set, and
every analyze command built by `analyzeAudio` carries exactly that value. -/
theorem prediction_type_enumerated (tr : List ClientAction)
    (hsel : ∀ a ∈ tr, selValOk a = true) :
    predictionTypeOptions = ["static", "dynamic", "both"]
    ∧ initialClientState.predictionType = "both"
    ∧ (tr.foldl stepClient initialClientState).predictionType ∈ predictionTypeOptions
    ∧ ∀ file_data filename,
        analyzeCommandSent file_data filename (tr.foldl stepClient initialClientState)
          = Command.analyze file_data filename
              (tr.foldl stepClient initialClientState).predictionType :=
  ⟨rfl, rfl,
    foldl_predictionType_mem tr initialClientState hsel (by decide),
    fun _ _ => rfl⟩

/-- C6 witness: the enumeration property along a concrete trace. -/
theorem prediction_type_enumerated_witness :
    (∀ a ∈ demoTrace, selValOk a = true)
    ∧ (demoTrace.foldl stepClient initialClientState).predictionType
        ∈ predictionTypeOptions :=
  ⟨by decide, (prediction_type_enumerated demoTrace (by decide)).2.2.1⟩

/-- A row for a step whose `in_progress` entry carries a progress value is
built without throwing. -/
theorem renderStepRow_ok (st : StepInfo)
    (h : st.status = "in_progress" → st.progress.isSome = true) :
    (renderStepRow st).isOk = true := by
  by_cases hst : st.status = "in_progress"
  · rcases Option.isSome_iff_exists.mp (h hst) with ⟨q, hq⟩
    simp [renderStepRow, hst, jsToFixed, hq, Except.isOk, Except.toBool]
  · simp [renderStepRow, hst, Except.isOk, Except.toBool]

/-- The whole steps section renders when every `in_progress` entry carries a
progress value. -/
theorem renderStepList_ok :
    ∀ steps : List StepInfo,
      (∀ st ∈ steps, st.status = "in_progress" → st.progress.isSome = true) →
      (renderStepList steps).isOk = true
  | [], _ => rfl
  | st :: rest, h => by
      have hrow := renderStepRow_ok st (h st (List.mem_cons_self st rest))
      have hrest := renderStepList_ok rest (fun x hx => h x (List.mem_cons_of_mem st hx))
      rw [renderStepList]
      cases hr : renderStepRow st with
      | error e => rw [hr] at hrow; exact absurd hrow (by simp [Except.isOk, Except.toBool])
      | ok row =>
          cases hl : renderStepList rest with
          | error e => rw [hl] at hrest; exact absurd hrest (by simp [Except.isOk, Except.toBool])
          | ok rows => simp [Except.isOk, Except.toBool]

/-- C9: the step-list rendering reads `step.progress` (via `toFixed`) for
exactly the `in_progress` entries: it is total on every `all_steps` array
whose `in_progress` entries carry a numeric progress, it never reads
`progress` of a row with another status, and it does throw if an
`in_progress` entry lacks `progress`. -/
theorem step_row_render_total (steps : List StepInfo)
    (h : ∀ st ∈ steps, st.status = "in_progress" → st.progress.isSome = true) :
    (renderStepList steps).isOk = true
    ∧ (∀ st : StepInfo, st.status ≠ "in_progress" →
        ∀ p, renderStepRow { st with progress := p } = renderStepRow st)
    ∧ ∀ st : StepInfo, st.status = "in_progress" → st.progress = none →
        renderStepRow st = Except.error "TypeError: toFixed called on undefined" := by
  refine ⟨renderStepList_ok steps h, fun st hst p => ?_, fun st hst hp => ?_⟩
  · simp [renderStepRow, hst]
  · simp [renderStepRow, hst, hp, jsToFixed]

/-- C9 witness: a concrete received step list renders without error. -/
theorem step_row_render_total_witness :
    (∀ st ∈ demoRenderSteps, st.status = "in_progress" → st.progress.isSome = true)
    ∧ (renderStepList demoRenderSteps).isOk = true :=
  ⟨by decide, (step_row_render_total demoRenderSteps (by decide)).1⟩

/-- The progress trace starts at the start value. -/
theorem progressTrace_head (p : ℚ) (evs : List ServerEvent) :
    (progressTrace p evs).head? = some p := by
  cases evs <;> rfl

/-- The `overallProgress` values of the client trace are the progress trace. -/
theorem clientTrace_map_progress :
    ∀ (evs : List ServerEvent) (s : ClientState),
      (clientTrace s evs).map (fun t => t.overallProgress)
        = progressTrace s.overallProgress evs
  | [], _ => rfl
  | e :: evs, s => by
      rw [clientTrace, progressTrace, List.map_cons,
        clientTrace_map_progress evs (handleMessage s e),
        handleMessage_overallProgress]

/-- A `GoodFrom` stream yields a weakly increasing progress trace. -/
theorem chain_progressTrace :
    ∀ (evs : List ServerEvent) (p : ℚ), GoodFrom p evs →
      List.Chain' (· ≤ ·) (progressTrace p evs)
  | [], p, _ => List.chain'_singleton p
  | e :: evs, p, h => by
      rw [progressTrace, List.chain'_cons']
      refine ⟨fun y hy => ?_, chain_progressTrace evs _ h.2⟩
      rw [progressTrace_head, Option.mem_some_iff] at hy
      subst hy
      exact h.1

/-- The progress formula is monotone in the fractional progress. -/
theorem overallProgressOf_mono (n i : ℕ) (f g : ℚ) (h : f ≤ g) :
    overallProgressOf n i f ≤ overallProgressOf n i g := by
  unfold overallProgressOf
  rw [div_eq_mul_inv, div_eq_mul_inv]
  have hn : (0 : ℚ) ≤ ((n : ℚ))⁻¹ := inv_nonneg.mpr (Nat.cast_nonneg n)
  have h1 : ((i : ℚ) + f) ≤ ((i : ℚ) + g) := by linarith
  exact mul_le_mul_of_nonneg_right (mul_le_mul_of_nonneg_right h1 hn) (by norm_num)

/-- The progress formula is non-negative for non-negative fractions. -/
theorem overallProgressOf_nonneg (n i : ℕ) (f : ℚ) (hf : 0 ≤ f) :
    0 ≤ overallProgressOf n i f := by
  unfold overallProgressOf
  have h1 : (0 : ℚ) ≤ (i : ℚ) + f := add_nonneg (Nat.cast_nonneg i) hf
  exact mul_nonneg (div_nonneg h1 (Nat.cast_nonneg n)) (by norm_num)

/-- The progress formula never exceeds 100 at a step boundary. -/
theorem overallProgressOf_le_100 (n i : ℕ) (hin : i ≤ n) :
    overallProgressOf n i 0 ≤ 100 := by
  unfold overallProgressOf
  rcases Nat.eq_zero_or_pos n with hn | hn
  · subst hn
    rw [Nat.cast_zero, div_zero]
    norm_num
  · have hnq : (0 : ℚ) < (n : ℚ) := by exact_mod_cast hn
    have hdiv : ((i : ℚ) + 0) / (n : ℚ) ≤ 1 := by
      rw [add_zero, div_le_one hnq]
      exact_mod_cast hin
    calc ((i : ℚ) + 0) / (n : ℚ) * 100
        ≤ 1 * 100 := mul_le_mul_of_nonneg_right hdiv (by norm_num)
      _ = 100 := by norm_num

/-- Completing step `i` lands exactly on the boundary value of step `i+1`. -/
theorem overallProgressOf_succ (n i : ℕ) :
    overallProgressOf n i 1 = overallProgressOf n (i + 1) 0 := by
  unfold overallProgressOf
  push_cast
  ring

/-- Prepending the starting fraction `0` keeps a well-formed update list a
chain. -/
theorem chainLe_cons_zero (ups : List ℚ) (h : ∀ f ∈ ups, 0 ≤ f ∧ f ≤ 1)
    (hch : ChainLe ups) : ChainLe ((0 : ℚ) :: ups) := by
  cases ups with
  | nil => trivial
  | cons u us => exact ⟨(h u (List.mem_cons_self u us)).1, hch⟩

/-- Within one step, the emitted `progress_update` stream followed by
`step_completed` moves the held progress weakly upward. -/
theorem goodFrom_updates (allS : List RunStep) (n i : ℕ) :
    ∀ (ups : List ℚ) (prev : ℚ) (cont : List ServerEvent),
      prev ≤ 1 → (∀ f ∈ ups, 0 ≤ f ∧ f ≤ 1) → ChainLe (prev :: ups) →
      GoodFrom (overallProgressOf n i 1) cont →
      GoodFrom (overallProgressOf n i prev)
        ((ups.map fun f =>
            ServerEvent.progress_update (runnerAllSteps allS i (some f))
              (overallProgressOf n i f))
          ++ ServerEvent.step_completed (runnerAllSteps allS (i + 1) none)
              (overallProgressOf n i 1) :: cont)
  | [], prev, cont, h1, _, _, hcont => by
      rw [List.map_nil, List.nil_append]
      exact ⟨overallProgressOf_mono n i prev 1 h1, hcont⟩
  | f :: ups, prev, cont, _, hwf, hch, hcont => by
      rw [List.map_cons, List.cons_append]
      refine ⟨overallProgressOf_mono n i prev f hch.1, ?_⟩
      exact goodFrom_updates allS n i ups f cont
        (hwf f (List.mem_cons_self f ups)).2
        (fun x hx => hwf x (List.mem_cons_of_mem f hx)) hch.2 hcont

/-- Modelled-runner event streams move the held progress weakly upward: the
step events from position `i` on, followed by the two terminal events. -/
theorem goodFrom_runnerSteps (allS : List RunStep) (n : ℕ) (X : List StepInfo)
    (res : AnalysisResult) :
    ∀ (rest : List RunStep) (i : ℕ) (p : ℚ),
      (∀ rs ∈ rest, StepWF rs) → i + rest.length = n →
      p ≤ overallProgressOf n i 0 →
      GoodFrom p (runnerStepsEvents allS n i rest
        ++ [ServerEvent.pipeline_completed X 100, ServerEvent.analysis_complete res])
  | [], i, p, _, hlen, hle => by
      rw [runnerStepsEvents, List.nil_append]
      have hi : i = n := by simpa using hlen
      exact ⟨le_trans hle (overallProgressOf_le_100 n i hi.le), le_rfl, trivial⟩
  | rs :: rest, i, p, hwf, hlen, hle => by
      rw [runnerStepsEvents, runnerStepEvents]
      simp only [List.cons_append, List.append_assoc, List.singleton_append]
      refine ⟨hle, ?_⟩
      have hstep : StepWF rs := hwf rs (List.mem_cons_self rs rest)
      apply goodFrom_updates allS n i rs.updates 0
        (runnerStepsEvents allS n (i + 1) rest
          ++ [ServerEvent.pipeline_completed X 100, ServerEvent.analysis_complete res])
        (by norm_num) hstep.1 (chainLe_cons_zero rs.updates hstep.1 hstep.2)
      rw [overallProgressOf_succ]
      exact goodFrom_runnerSteps allS n X res rest (i + 1)
        (overallProgressOf n (i + 1) 0)
        (fun x hx => hwf x (List.mem_cons_of_mem rs hx))
        (by simp only [List.length_cons] at hlen; omega)
        le_rfl

/-- C1: across the full event stream of one modelled run, the
`overallProgress` the client holds is non-decreasing event after event. -/
theorem client_overall_progress_nondecreasing (s : ClientState) (sid : String)
    (steps : List RunStep) (res : AnalysisResult)
    (hwf : ∀ rs ∈ steps, StepWF rs) :
    List.Chain' (· ≤ ·)
      ((clientTrace (analyzeReset s) (runnerSuccessEvents sid steps res)).map
        (fun t => t.overallProgress)) := by
  rw [clientTrace_map_progress]
  have hp : (analyzeReset s).overallProgress = 0 := rfl
  rw [hp]
  apply chain_progressTrace
  simp only [runnerSuccessEvents, pipelineCompletedEvent]
  refine ⟨le_rfl, ?_⟩
  exact goodFrom_runnerSteps steps steps.length
    (runnerAllSteps steps steps.length none) res steps 0 0 hwf (by simp)
    (overallProgressOf_nonneg steps.length 0 0 le_rfl)

/-- C1 witness: the chain property at a concrete two-step run. -/
theorem client_overall_progress_nondecreasing_witness :
    (∀ rs ∈ demoRunSteps, StepWF rs)
    ∧ List.Chain' (· ≤ ·)
        ((clientTrace (analyzeReset initialClientState)
            (runnerSuccessEvents "sid-1" demoRunSteps demoResult)).map
          (fun t => t.overallProgress)) :=
  ⟨by decide,
    client_overall_progress_nondecreasing initialClientState "sid-1" demoRunSteps
      demoResult (by decide)⟩

/-- C2: a successful modelled run leaves the client at exactly 100 percent —
already after `pipeline_completed`, still after `analysis_complete` — and
with the carried result stored. -/
theorem success_run_ends_at_100 (s : ClientState) (sid : String)
    (steps : List RunStep) (res : AnalysisResult) :
    ((runnerSuccessEvents sid steps res).foldl handleMessage
        (analyzeReset s)).overallProgress = 100
    ∧ ((runnerSuccessEvents sid steps res).foldl handleMessage
        (analyzeReset s)).result = some res
    ∧ ((runnerSuccessEvents sid steps res).dropLast.foldl handleMessage
        (analyzeReset s)).overallProgress = 100 := by
  have hsplit : runnerSuccessEvents sid steps res
      = (ServerEvent.connected sid :: runnerStepsEvents steps steps.length 0 steps
          ++ [pipelineCompletedEvent steps]) ++ [ServerEvent.analysis_complete res] := by
    simp [runnerSuccessEvents]
  refine ⟨?_, ?_, ?_⟩
  · rw [hsplit, List.foldl_append]; rfl
  · rw [hsplit, List.foldl_append]; rfl
  · rw [hsplit, List.dropLast_concat]
    have hsplit2 : ServerEvent.connected sid
          :: runnerStepsEvents steps steps.length 0 steps ++ [pipelineCompletedEvent steps]
        = (ServerEvent.connected sid :: runnerStepsEvents steps steps.length 0 steps)
          ++ [pipelineCompletedEvent steps] := by simp
    rw [hsplit2, List.foldl_append]
    rfl

/-- Runner step events are never terminal events. -/
theorem runnerStepsEvents_no_terminal (allS : List RunStep) (n : ℕ) :
    ∀ (rest : List RunStep) (i : ℕ) (e : ServerEvent),
      e ∈ runnerStepsEvents allS n i rest →
      (∀ r, e ≠ ServerEvent.analysis_complete r)
      ∧ ∀ msg sts, e ≠ ServerEvent.pipeline_failed msg sts
  | [], _, e, he => absurd (by rw [runnerStepsEvents] at he; exact he) (List.not_mem_nil e)
  | rs :: rest, i, e, he => by
      rw [runnerStepsEvents] at he
      rcases List.mem_append.mp he with h | h
      · rw [runnerStepEvents] at h
        rcases List.mem_cons.mp h with h | h
        · subst h
          exact ⟨fun r hr => ServerEvent.noConfusion hr,
            fun m a hr => ServerEvent.noConfusion hr⟩
        · rcases List.mem_append.mp h with h | h
          · rcases List.mem_map.mp h with ⟨f, _, hf⟩
            subst hf
            exact ⟨fun r hr => ServerEvent.noConfusion hr,
              fun m a hr => ServerEvent.noConfusion hr⟩
          · rw [List.mem_singleton.mp h]
            exact ⟨fun r hr => ServerEvent.noConfusion hr,
              fun m a hr => ServerEvent.noConfusion hr⟩
      · exact runnerStepsEvents_no_terminal allS n rest (i + 1) e h

/-- The delivered events of a cancelled run contain no terminal result event. -/
theorem runnerCancelledEvents_no_terminal (sid : String) (steps : List RunStep)
    (j : ℕ) :
    ∀ e ∈ runnerCancelledEvents sid steps j,
      (∀ r, e ≠ ServerEvent.analysis_complete r)
      ∧ ∀ msg sts, e ≠ ServerEvent.pipeline_failed msg sts := by
  intro e he
  rw [runnerCancelledEvents] at he
  rcases List.mem_cons.mp he with h | h
  · subst h
    exact ⟨fun r hr => ServerEvent.noConfusion hr,
      fun m a hr => ServerEvent.noConfusion hr⟩
  · exact runnerStepsEvents_no_terminal steps steps.length (steps.take (j + 1)) 0 e h

/-- C3: `cancelAnalysis` sends exactly one `cancel` command, closes the
socket and clears the analyzing flag; a run cancelled during step `j` never
delivers `analysis_complete` or `pipeline_failed`, and the result held by the client
stays `null` through every prefix of the delivered events. -/
theorem cancel_no_result (s : ClientState) (sid : String) (steps : List RunStep)
    (j k : ℕ) :
    (cancelAnalysis true s).1.sent = [Command.cancel]
    ∧ (cancelAnalysis true s).1.closed = true
    ∧ (cancelAnalysis true s).2.isAnalyzing = false
    ∧ (∀ e ∈ runnerCancelledEvents sid steps j,
        (∀ r, e ≠ ServerEvent.analysis_complete r)
        ∧ ∀ msg sts, e ≠ ServerEvent.pipeline_failed msg sts)
    ∧ (((runnerCancelledEvents sid steps j).take k).foldl handleMessage
        (analyzeReset s)).result = none := by
  refine ⟨rfl, rfl, rfl, runnerCancelledEvents_no_terminal sid steps j, ?_⟩
  apply foldl_result_none _ _ rfl
  intro e he
  exact (runnerCancelledEvents_no_terminal sid steps j e
    (List.take_subset k (runnerCancelledEvents sid steps j) he)).1

end Musimo
